import Mathlib

/-!
Shallow embedding of the resilient fetch layer of `ljobx` and proofs about it.

The embedding covers:
* `src/ljobx/api/linkedin_client.py` — proxy pool, rotation, cooldown and the
  retry loop (`LinkedInClient`);
* `src/ljobx/api/linkedin_api.py` — the per-proxy health bookkeeping of the
  simpler client (`LinkedInApi`);
* `src/ljobx/api/proxy/file_proxy_provider.py` — line filtering of file-sourced
  proxies (`FileProxyProvider`);
* the attribute set of `LinkedInClient` as read by `LinkedInScraper.run`.

Modelling conventions: `time.time()` is modelled as a `Nat` supplied by the
caller (each operation takes the current time as an argument); `random.shuffle`
is modelled as an explicit permutation-producing function passed to the
constructor; the HTTP call of each retry attempt is an oracle
`Nat → Except String String` mapping the attempt index to an error message or a
response body; Python strings are modelled as `List Char` where character-level
operations (strip, lower, startswith) matter, and as `String` elsewhere.
-/

namespace Ljobx

namespace LinkedInClient

/-- `LinkedInClient._ProxyState`: address (`none` for the sentinel direct
route), failure count, and cooldown deadline. -/
structure ProxyState where
  address : Option String
  failures : Nat
  cooldown_until : Nat
deriving Repr, DecidableEq

instance : Inhabited ProxyState := ⟨⟨none, 0, 0⟩⟩

/-- The proxy-pool part of a `LinkedInClient`: the ordered list
`self._proxies` plus the position of the `itertools.cycle` iterator
`self._proxy_cycle` (index of the element the next `next()` will yield). -/
structure ClientState where
  proxies : List ProxyState
  cursor : Nat
deriving Repr, DecidableEq

/-- Pool setup in `LinkedInClient.__init__`: with no proxies (`None` or `[]`)
the pool is the single sentinel direct route; otherwise the supplied list is
shuffled (`random.shuffle`, modelled by the explicit `shuffle` argument) and
wrapped into fresh `_ProxyState`s. The cycle starts at position 0. -/
def init (shuffle : List String → List String) (proxies : Option (List String)) :
    ClientState :=
  match proxies with
  | none => ⟨[⟨none, 0, 0⟩], 0⟩
  | some l =>
    if l.isEmpty then ⟨[⟨none, 0, 0⟩], 0⟩
    else ⟨(shuffle l).map (fun p => ⟨some p, 0, 0⟩), 0⟩

/-- The eligibility test `time.time() >= proxy_state.cooldown_until`. -/
def eligible (now : Nat) (p : ProxyState) : Bool :=
  decide (p.cooldown_until ≤ now)

/-- The scan loop of `_get_next_available_proxy`: up to `fuel` steps, each step
takes the proxy at the cycle position (advancing the cycle by one) and returns
its index if it is eligible. Returns the selected index (if any) and the final
cycle position. -/
def scanFrom (now : Nat) (ps : List ProxyState) : Nat → Nat → Option Nat × Nat
  | cursor, 0 => (none, cursor)
  | cursor, fuel + 1 =>
    let i := cursor % ps.length
    if eligible now (ps.getD i default) then (some i, (i + 1) % ps.length)
    else scanFrom now ps ((i + 1) % ps.length) fuel

/-- `LinkedInClient._get_next_available_proxy`: scan at most `len(self._proxies)`
positions from the cycle position; return the first eligible proxy (as its
index into the pool) or `none`, together with the updated state. -/
def get_next_available_proxy (now : Nat) (s : ClientState) : Option Nat × ClientState :=
  ((scanFrom now s.proxies s.cursor s.proxies.length).1,
   ⟨s.proxies, (scanFrom now s.proxies s.cursor s.proxies.length).2⟩)

/-- `LinkedInClient._mark_failure`: increment the failure count, then cool
down for `min(300, 2**failures)` seconds from now (the exponent uses the
already-incremented count). -/
def mark_failure (now : Nat) (p : ProxyState) : ProxyState :=
  ⟨p.address, p.failures + 1, now + min 300 (2 ^ (p.failures + 1))⟩

/-- `LinkedInClient._mark_success`: reset failures and cooldown to zero. -/
def mark_success (p : ProxyState) : ProxyState :=
  ⟨p.address, 0, 0⟩

/-- In-place mutation of the proxy object at index `i` of the pool (the Python
list holds the mutated object; the cycle position is unaffected). -/
def updateProxy (s : ClientState) (i : Nat) (f : ProxyState → ProxyState) : ClientState :=
  ⟨s.proxies.set i (f (s.proxies.getD i default)), s.cursor⟩

/-- A run of consecutive recorded failures on one route, at the given
timestamps, with no intervening success. -/
def afterFailures (ts : List Nat) (p : ProxyState) : ProxyState :=
  ts.foldl (fun q t => mark_failure t q) p

/-- `k` consecutive calls of the selector with no intervening marks, collecting
the returned indices. -/
def runNextCalls (now : Nat) : ClientState → Nat → List (Option Nat) × ClientState
  | s, 0 => ([], s)
  | s, k + 1 =>
    let r := get_next_available_proxy now s
    let rest := runNextCalls now r.2 k
    (r.1 :: rest.1, rest.2)

/-- Outcome of `_fetch_with_retries`: a response body, or the
`AllProxiesFailedError` carrying the final value of the `last_exception`
variable. -/
inductive FetchResult where
  | success : String → FetchResult
  | allProxiesFailed : Option String → FetchResult
deriving Repr, DecidableEq

/-- Observable trace of one `_fetch_with_retries` call: its outcome, the number
of loop iterations used, the list of `asyncio.sleep` durations performed on
"all proxies are on cooldown" waits, and the final pool state. -/
structure FetchTrace where
  result : FetchResult
  attemptsUsed : Nat
  sleeps : List Nat
  finalState : ClientState
deriving Repr, DecidableEq

/-- The retry loop body of `_fetch_with_retries`. `attempt` is the loop
variable, `fuel` the remaining iterations of `range(self.max_retries)`,
`lastExc` the `last_exception` variable (initialised to `None` and — exactly as
in the source — never reassigned), `sleeps` the sleeps performed so far. On a
`None` proxy: sleep 5 seconds and continue. On an HTTP failure: mark the proxy
failed and continue. On success: mark it good and return the body. When the
loop ends, `AllProxiesFailedError` reports `lastExc`. -/
def fetchGo (times : Nat → Nat) (http : Nat → Except String String) :
    Nat → Option String → List Nat → ClientState → Nat → FetchTrace
  | attempt, lastExc, sleeps, s, 0 => ⟨.allProxiesFailed lastExc, attempt, sleeps, s⟩
  | attempt, lastExc, sleeps, s, fuel + 1 =>
    let now := times attempt
    let r := get_next_available_proxy now s
    match r.1 with
    | none => fetchGo times http (attempt + 1) lastExc (sleeps ++ [5]) r.2 fuel
    | some i =>
      match http attempt with
      | .ok body => ⟨.success body, attempt + 1, sleeps, updateProxy r.2 i mark_success⟩
      | .error _e => fetchGo times http (attempt + 1) lastExc sleeps (updateProxy r.2 i (mark_failure now)) fuel

/-- `LinkedInClient._fetch_with_retries` over the oracle inputs: loop over
`range(maxRetries)` starting with `last_exception = None` and no sleeps. -/
def fetch_with_retries (times : Nat → Nat) (http : Nat → Except String String)
    (maxRetries : Nat) (s : ClientState) : FetchTrace :=
  fetchGo times http 0 none [] s maxRetries

/-- The attributes bound on a `LinkedInClient` instance: everything assigned in
`__init__` plus the class-level names (constants, the nested dataclass, and the
methods). -/
def instanceAttrs : List String :=
  ["concurrency_limit", "semaphore", "delay", "ua", "max_retries",
   "_clients", "_proxies", "_proxy_cycle",
   "BASE_LIST_URL", "BASE_DETAILS_URL", "_ProxyState",
   "_headers", "_get_next_available_proxy", "_mark_failure", "_mark_success",
   "_fetch_with_retries", "get_job_list", "get_job_details", "close"]

end LinkedInClient

/-- Python attribute lookup: `obj.name` succeeds iff `name` is among the
object's attributes, otherwise it raises `AttributeError`. -/
def pyGetattr (attrs : List String) (name : String) : Except String Unit :=
  if name ∈ attrs then .ok () else .error ("AttributeError: " ++ name)

/-- The stats block at the end of `LinkedInScraper.run`:
`{'success': self.client.success_count, 'failures': self.client.failure_count}`
— two attribute reads on the client, in source order. -/
def scraperStats (attrs : List String) : Except String Unit := do
  let _ ← pyGetattr attrs "success_count"
  let _ ← pyGetattr attrs "failure_count"
  .ok ()

namespace LinkedInApi

/-- Per-proxy health entry of `LinkedInApi`: the values
`self._proxy_failures[k]` and `self._proxy_cooldown[k]` for one proxy key. -/
structure Health where
  failures : Nat
  cooldown : Nat
deriving Repr, DecidableEq

/-- `LinkedInApi._mark_failure` for one key: increment the failure count, cool
down for `min(60, 2**failures)` seconds from now. -/
def mark_failure (now : Nat) (h : Health) : Health :=
  ⟨h.failures + 1, now + min 60 (2 ^ (h.failures + 1))⟩

/-- `LinkedInApi._mark_success` for one key: reset both fields to zero. -/
def mark_success (_h : Health) : Health :=
  ⟨0, 0⟩

/-- Consecutive recorded failures on one key at the given timestamps. -/
def afterFailures (ts : List Nat) (h : Health) : Health :=
  ts.foldl (fun q t => mark_failure t q) h

end LinkedInApi

namespace FileProxyProvider

/-- Whitespace for Python's `str.strip()` (the ASCII fragment). -/
def pyIsSpace (c : Char) : Bool :=
  c = ' ' || c = '\t' || c = '\n' || c = '\x0d' || c = '\x0b' || c = '\x0c'

/-- Python `line.strip()`. -/
def pyStrip (s : List Char) : List Char :=
  ((s.dropWhile pyIsSpace).reverse.dropWhile pyIsSpace).reverse

/-- Python `str.lower()` on one character (ASCII fragment). -/
def pyLowerChar (c : Char) : Char :=
  if 'A' ≤ c && c ≤ 'Z' then Char.ofNat (c.toNat + 32) else c

/-- Python `proxy.lower()`. -/
def pyToLower (s : List Char) : List Char :=
  s.map pyLowerChar

/-- The character class of `PROTOCOL_REGEX = ^[a-zA-Z0-9]+://`. -/
def isProtocolChar (c : Char) : Bool :=
  ('a' ≤ c && c ≤ 'z') || ('A' ≤ c && c ≤ 'Z') || ('0' ≤ c && c ≤ '9')

/-- `PROTOCOL_REGEX.match(proxy)`: a nonempty alphanumeric run followed by
`://` at the start of the string. -/
def hasProtocol (s : List Char) : Bool :=
  let pre := s.takeWhile isProtocolChar
  !pre.isEmpty && List.isPrefixOf "://".data (s.drop pre.length)

/-- Python truthiness of an optional string (`None` and `""` are falsy). -/
def truthy (o : Option (List Char)) : Option (List Char) :=
  match o with
  | none => none
  | some d => if d.isEmpty then none else some d

/-- The per-line body of `FileProxyProvider.get_proxies`: strip the line, skip
blank and `#` lines, skip `http://` lines (case-insensitive), then either keep
a protocol-bearing proxy (when it matches the configured default, if any) or
prepend the configured default protocol to a bare one. Returns the proxy
appended by this line, if any. `defaultProtocol` is the already
truthiness-normalised `config.get("protocol")`. -/
def processLine (defaultProtocol : Option (List Char)) (line : List Char) :
    Option (List Char) :=
  let proxy := pyStrip line
  if proxy.isEmpty || List.isPrefixOf "#".data proxy then none
  else if List.isPrefixOf "http://".data (pyToLower proxy) then none
  else if hasProtocol proxy then
    match defaultProtocol with
    | some dp => if List.isPrefixOf (dp ++ "://".data) proxy then some proxy else none
    | none => some proxy
  else
    match defaultProtocol with
    | some dp => some (dp ++ "://".data ++ proxy)
    | none => none

/-- One entry of `file_configs` together with the file it points at:
`config.get("path")`, `config.get("protocol")`, and the file's lines (`none`
when the file cannot be opened, matching the caught `FileNotFoundError`). -/
structure FileConfig where
  path : Option (List Char)
  protocol : Option (List Char)
  content : Option (List (List Char))
deriving Repr, DecidableEq

/-- The per-config body of `get_proxies`: skip configs with a missing (falsy)
path or an unreadable file, otherwise process every line. -/
def processConfig (c : FileConfig) : List (List Char) :=
  match truthy c.path with
  | none => []
  | some _ =>
    match c.content with
    | none => []
    | some ls => ls.filterMap (processLine (truthy c.protocol))

/-- `FileProxyProvider.get_proxies`: accumulate the proxies of every file
configuration, in order. -/
def get_proxies (configs : List FileConfig) : List (List Char) :=
  configs.foldl (fun acc c => acc ++ processConfig c) []

end FileProxyProvider

namespace LinkedInClient

/-! ### Selector lemmas -/

/-- Characterisation of the scan loop: starting at position `c < len` with
`fuel` steps, the result is the first eligible index in the cyclic order
`c, c+1, …, c+fuel-1 (mod len)`; the final cycle position is one past the
selected index, or `c + fuel (mod len)` when nothing was selected. -/
theorem scanFrom_eq (now : Nat) (ps : List ProxyState) (hn : 0 < ps.length) :
    ∀ (fuel c : Nat), c < ps.length →
      scanFrom now ps c fuel =
        (((List.range fuel).map fun j => (c + j) % ps.length).find?
            (fun i => eligible now (ps.getD i default))).elim
          (none, (c + fuel) % ps.length)
          (fun i => (some i, (i + 1) % ps.length)) := by
  intro fuel
  induction fuel with
  | zero =>
    intro c hc
    simp [scanFrom, Nat.mod_eq_of_lt hc]
  | succ fuel ih =>
    intro c hc
    have hc1 : (c + 1) % ps.length < ps.length := Nat.mod_lt _ hn
    rw [List.range_succ_eq_map, List.map_cons]
    by_cases h : eligible now (ps.getD c default)
    · have h2 : eligible now (ps[c]?.getD default) = true := by
        simpa [List.getD_eq_getElem?_getD] using h
      rw [List.find?_cons_of_pos]
      · simp [scanFrom, Nat.mod_eq_of_lt hc, h, h2]
      · simpa [Nat.mod_eq_of_lt hc] using h
    · rw [List.find?_cons_of_neg]
      · have hmap : (List.range fuel).map (fun j => (c + Nat.succ j) % ps.length)
            = (List.range fuel).map (fun j => ((c + 1) % ps.length + j) % ps.length) := by
          refine List.map_congr_left ?_
          intro j _
          rw [Nat.mod_add_mod]
          congr 1
          omega
        have h2 : ¬ eligible now (ps[c]?.getD default) = true := by
          simpa [List.getD_eq_getElem?_getD] using h
        have hstep : scanFrom now ps c (fuel + 1) = scanFrom now ps ((c + 1) % ps.length) fuel := by
          simp [scanFrom, Nat.mod_eq_of_lt hc, h, h2]
        rw [hstep, ih _ hc1, List.map_map]
        have hfun : ((fun j => (c + j) % ps.length) ∘ Nat.succ)
            = (fun j => ((c + 1) % ps.length + j) % ps.length) := by
          funext j
          show (c + Nat.succ j) % ps.length = _
          rw [Nat.mod_add_mod]
          congr 1
          omega
        rw [hfun]
        have hcur : ((c + 1) % ps.length + fuel) % ps.length = (c + (fuel + 1)) % ps.length := by
          rw [Nat.mod_add_mod]
          congr 1
          omega
        rw [hcur]
      · simpa [Nat.mod_eq_of_lt hc] using h

/-- The selector in terms of the scan characterisation. -/
theorem get_next_eq (now : Nat) (s : ClientState) (hn : 0 < s.proxies.length)
    (hc : s.cursor < s.proxies.length) :
    get_next_available_proxy now s =
      (((List.range s.proxies.length).map fun j => (s.cursor + j) % s.proxies.length).find?
          (fun i => eligible now (s.proxies.getD i default))).elim
        (none, ⟨s.proxies, s.cursor⟩)
        (fun i => (some i, ⟨s.proxies, (i + 1) % s.proxies.length⟩)) := by
  rw [get_next_available_proxy, scanFrom_eq now s.proxies hn s.proxies.length s.cursor hc]
  cases hfind : ((List.range s.proxies.length).map fun j => (s.cursor + j) % s.proxies.length).find?
      (fun i => eligible now (s.proxies.getD i default)) with
  | none => simp [Nat.add_mod_left, Nat.mod_eq_of_lt hc, Nat.add_comm s.cursor]
  | some i => simp

/-- Every index below `len` occurs in the cyclic scan order of a full scan. -/
theorem mem_scanOrder (n c i : Nat) (hn : 0 < n) (hc : c < n) (hi : i < n) :
    i ∈ (List.range n).map (fun j => (c + j) % n) := by
  refine List.mem_map.2 ⟨(i + n - c) % n, List.mem_range.2 (Nat.mod_lt _ hn), ?_⟩
  have h1 : (c + (i + n - c) % n) % n = (c + (i + n - c)) % n := by
    conv_lhs => rw [Nat.add_comm c]
    rw [Nat.mod_add_mod]
    congr 1
    omega
  rw [h1]
  have h2 : c + (i + n - c) = i + n := by omega
  rw [h2, Nat.add_mod_right, Nat.mod_eq_of_lt hi]

/-- Every element of the cyclic scan order is an index below `len`. -/
theorem scanOrder_lt (n c : Nat) (hn : 0 < n) :
    ∀ i ∈ (List.range n).map (fun j => (c + j) % n), i < n := by
  intro i hi
  rcases List.mem_map.1 hi with ⟨j, _, rfl⟩
  exact Nat.mod_lt _ hn

/-- `List.find?_some` with the predicate inferred from the equation, not from
the expected type. -/
theorem find?_some_of_eq {α : Type} {p : α → Bool} {l : List α} {a : α}
    (h : List.find? p l = some a) : p a = true :=
  List.find?_some h

/-- The pool entry at a valid index is a member of the pool. -/
theorem getD_mem (ps : List ProxyState) (i : Nat) (hi : i < ps.length) :
    ps.getD i default ∈ ps := by
  rw [List.getD_eq_getElem?_getD, List.getElem?_eq_getElem hi]
  exact List.getElem_mem hi

/-- When the route at the cycle position is eligible, the selector returns it
and advances the position by exactly one. -/
theorem next_of_eligible_at_cursor (now : Nat) (s : ClientState)
    (hn : 0 < s.proxies.length) (hc : s.cursor < s.proxies.length)
    (hd : eligible now (s.proxies.getD s.cursor default) = true) :
    get_next_available_proxy now s =
      (some s.cursor, ⟨s.proxies, (s.cursor + 1) % s.proxies.length⟩) := by
  rw [get_next_eq now s hn hc]
  obtain ⟨m, hm⟩ : ∃ m, s.proxies.length = m + 1 := ⟨s.proxies.length - 1, by omega⟩
  have hc' : s.cursor < m + 1 := hm ▸ hc
  rw [hm, List.range_succ_eq_map, List.map_cons, List.find?_cons_of_pos]
  · simp [Nat.mod_eq_of_lt hc']
  · simpa [Nat.mod_eq_of_lt hc'] using hd

/-- The cyclic scan order of a full scan is a permutation of all indices. -/
theorem scanOrder_perm (n c : Nat) (hn : 0 < n) (hc : c < n) :
    ((List.range n).map fun j => (c + j) % n).Perm (List.range n) := by
  have hnodup : ((List.range n).map fun j => (c + j) % n).Nodup := by
    refine List.Nodup.map_on ?_ (List.nodup_range _)
    intro x hx y hy hxy
    have hx' := List.mem_range.1 hx
    have hy' := List.mem_range.1 hy
    have hmod : x % n = y % n := Nat.ModEq.add_left_cancel' c hxy
    rwa [Nat.mod_eq_of_lt hx', Nat.mod_eq_of_lt hy'] at hmod
  have hsub : ((List.range n).map fun j => (c + j) % n) ⊆ List.range n := by
    intro a ha
    exact List.mem_range.2 (scanOrder_lt n c hn a ha)
  exact (List.subperm_of_subset hnodup hsub).perm_of_length_le (by simp)

/-- Concrete two-route pool used for the cursor-advance counterexample: two
routes, the first of which has just failed at time 0. -/
def twoRouteState : ClientState :=
  updateProxy (init (fun l => l) (some ["a", "b"])) 0 (mark_failure 0)

/-- With every route eligible, each selector call returns the route at the
cursor and advances the cursor by one; `k` consecutive calls therefore return
the `k` routes following the cursor in cyclic order. -/
theorem runNextCalls_all_eligible (now : Nat) (ps : List ProxyState) (hn : 0 < ps.length)
    (helig : ∀ p ∈ ps, p.cooldown_until ≤ now) :
    ∀ (k c : Nat), c < ps.length →
      runNextCalls now ⟨ps, c⟩ k =
        ((List.range k).map fun j => some ((c + j) % ps.length),
         ⟨ps, (c + k) % ps.length⟩) := by
  intro k
  induction k with
  | zero =>
    intro c hc
    simp [runNextCalls, Nat.mod_eq_of_lt hc]
  | succ k ih =>
    intro c hc
    have hd : eligible now (ps.getD c default) = true :=
      decide_eq_true (helig _ (getD_mem ps c hc))
    have hnext : get_next_available_proxy now ⟨ps, c⟩ =
        (some c, ⟨ps, (c + 1) % ps.length⟩) :=
      next_of_eligible_at_cursor now ⟨ps, c⟩ hn hc hd
    have hc1 : (c + 1) % ps.length < ps.length := Nat.mod_lt _ hn
    rw [runNextCalls, hnext, ih ((c + 1) % ps.length) hc1]
    dsimp only
    rw [List.range_succ_eq_map, List.map_cons, List.map_map]
    refine congrArg₂ Prod.mk ?_ ?_
    · refine congrArg₂ List.cons (by rw [Nat.add_zero, Nat.mod_eq_of_lt hc]) ?_
      refine List.map_congr_left ?_
      intro j _
      show some (((c + 1) % ps.length + j) % ps.length) = some ((c + Nat.succ j) % ps.length)
      rw [Nat.mod_add_mod]
      congr 2
      omega
    · refine congrArg (ClientState.mk ps) ?_
      rw [Nat.mod_add_mod]
      congr 1
      omega

/-! ### Failure/cooldown bookkeeping lemmas -/

theorem afterFailures_append (ts us : List Nat) (p : ProxyState) :
    afterFailures (ts ++ us) p = afterFailures us (afterFailures ts p) := by
  simp [afterFailures, List.foldl_append]

theorem afterFailures_failures (ts : List Nat) :
    ∀ p : ProxyState, (afterFailures ts p).failures = p.failures + ts.length := by
  induction ts with
  | nil => intro p; simp [afterFailures]
  | cons t ts ih =>
    intro p
    show (afterFailures ts (mark_failure t p)).failures = _
    rw [ih]
    show p.failures + 1 + ts.length = _
    simp
    omega

theorem afterFailures_address (ts : List Nat) :
    ∀ p : ProxyState, (afterFailures ts p).address = p.address := by
  induction ts with
  | nil => intro p; simp [afterFailures]
  | cons t ts ih =>
    intro p
    show (afterFailures ts (mark_failure t p)).address = _
    rw [ih]
    rfl

theorem afterFailures_last_cooldown (ts : List Nat) (t : Nat) (p : ProxyState) :
    (afterFailures (ts ++ [t]) p).cooldown_until
      = t + min 300 (2 ^ (p.failures + ts.length + 1)) := by
  rw [afterFailures_append]
  show (mark_failure t (afterFailures ts p)).cooldown_until = _
  show t + min 300 (2 ^ ((afterFailures ts p).failures + 1)) = _
  rw [afterFailures_failures]

/-- Index-wise form of `take`: one more element appends the entry at the old
length. -/
theorem take_succ_getD : ∀ (l : List Nat) (j : Nat), j < l.length →
    l.take (j + 1) = l.take j ++ [l.getD j 0] := by
  intro l
  induction l with
  | nil => intro j h; simp at h
  | cons a l ih =>
    intro j h
    cases j with
    | zero => simp
    | succ j =>
      have h' : j < l.length := by simpa using h
      simp [ih j h']

/-- Adjacent entries of a `≤`-chain, in `getD` form. -/
theorem chain_getD_le (ts : List Nat) (hch : ts.Chain' (· ≤ ·)) (i : Nat)
    (h : i + 1 < ts.length) : ts.getD i 0 ≤ ts.getD (i + 1) 0 := by
  have hg := List.chain'_iff_get.1 hch i (by omega)
  rw [List.getD_eq_getElem?_getD, List.getD_eq_getElem?_getD,
      List.getElem?_eq_getElem (by omega : i < ts.length), List.getElem?_eq_getElem h]
  simpa [List.get_eq_getElem] using hg

theorem api_afterFailures_failures (ts : List Nat) :
    ∀ h : LinkedInApi.Health, (LinkedInApi.afterFailures ts h).failures = h.failures + ts.length := by
  induction ts with
  | nil => intro h; simp [LinkedInApi.afterFailures]
  | cons t ts ih =>
    intro h
    show (LinkedInApi.afterFailures ts (LinkedInApi.mark_failure t h)).failures = _
    rw [ih]
    show h.failures + 1 + ts.length = _
    simp
    omega

theorem api_afterFailures_append (ts us : List Nat) (h : LinkedInApi.Health) :
    LinkedInApi.afterFailures (ts ++ us) h
      = LinkedInApi.afterFailures us (LinkedInApi.afterFailures ts h) := by
  simp [LinkedInApi.afterFailures, List.foldl_append]

theorem api_afterFailures_last_cooldown (ts : List Nat) (t : Nat) (h : LinkedInApi.Health) :
    (LinkedInApi.afterFailures (ts ++ [t]) h).cooldown
      = t + min 60 (2 ^ (h.failures + ts.length + 1)) := by
  rw [api_afterFailures_append]
  show (LinkedInApi.mark_failure t (LinkedInApi.afterFailures ts h)).cooldown = _
  show t + min 60 (2 ^ ((LinkedInApi.afterFailures ts h).failures + 1)) = _
  rw [api_afterFailures_failures]

/-! ### Claim C9 -/

/-- C9: constructed with a non-empty proxy list, the pool holds exactly one
proxy-state per supplied route — as many states as routes, their addresses are
the shuffled input in the shuffle's order, and as a multiset they coincide with
the input addresses (a permutation, given that the shuffle permutes its
input) — all states starting with zero failures and zero cooldown. -/
theorem c9_shuffled_rotation (shuffle : List String → List String) (l : List String)
    (hs : ∀ xs : List String, (shuffle xs).Perm xs) (hl : l ≠ []) :
    (init shuffle (some l)).proxies.length = l.length
    ∧ (init shuffle (some l)).proxies.map ProxyState.address = (shuffle l).map some
    ∧ ((init shuffle (some l)).proxies.map ProxyState.address).Perm (l.map some)
    ∧ ∀ p ∈ (init shuffle (some l)).proxies, p.failures = 0 ∧ p.cooldown_until = 0 := by
  have hempty : l.isEmpty = false := by
    cases l with
    | nil => exact absurd rfl hl
    | cons a l => rfl
  have hinit : init shuffle (some l)
      = ⟨(shuffle l).map (fun p => ⟨some p, 0, 0⟩), 0⟩ := by
    simp [init, hempty]
  rw [hinit]
  refine ⟨?_, ?_, ?_, ?_⟩
  · simp [(hs l).length_eq]
  · rw [List.map_map]
    rfl
  · rw [List.map_map]
    exact List.Perm.map _ (hs l)
  · intro p hp
    rcases List.mem_map.1 hp with ⟨a, _, rfl⟩
    exact ⟨rfl, rfl⟩

/-- Witness for `c9_shuffled_rotation`: shuffling by reversal, the pool built
from `["a", "b"]` carries the same addresses as a multiset. -/
theorem c9_shuffled_rotation_witness :
    (∀ xs : List String, xs.reverse.Perm xs) ∧ (["a", "b"] : List String) ≠ [] ∧
    ((init List.reverse (some ["a", "b"])).proxies.map ProxyState.address).Perm
      ((["a", "b"] : List String).map some) :=
  ⟨fun xs => xs.reverse_perm, by simp,
   (c9_shuffled_rotation List.reverse ["a", "b"] (fun xs => xs.reverse_perm) (by simp)).2.2.1⟩

/-! ### Sentinel-route lemmas -/

/-- Closed form of the cooldown after a nonempty run of failures on a zeroed
route: the last failure time plus `min(300, 2^k)`. -/
theorem afterFailures_cooldown_closed (ts : List Nat) (p : ProxyState) (hne : ts ≠ [])
    (hp0 : p.failures = 0) :
    (afterFailures ts p).cooldown_until = ts.getLastD 0 + min 300 (2 ^ ts.length) := by
  have hdec := List.dropLast_append_getLast hne
  have hlen : 0 < ts.length := List.length_pos.2 hne
  calc (afterFailures ts p).cooldown_until
      = (afterFailures (ts.dropLast ++ [ts.getLast hne]) p).cooldown_until := by rw [hdec]
    _ = ts.getLast hne + min 300 (2 ^ (p.failures + ts.dropLast.length + 1)) :=
        afterFailures_last_cooldown _ _ _
    _ = ts.getLastD 0 + min 300 (2 ^ ts.length) := by
        rw [hp0, List.length_dropLast]
        refine congrArg₂ (· + ·) ?_ ?_
        · conv_rhs => rw [← hdec]
          rw [List.getLastD_concat]
        · refine congrArg (min 300) (congrArg (2 ^ ·) ?_)
          omega

/-- The pool constructed with no proxies and then hit by consecutive failures
on its only route. -/
def sentinelAfterFails (ts : List Nat) : ClientState :=
  ts.foldl (fun st t => updateProxy st 0 (mark_failure t)) (init (fun l => l) none)

theorem foldUpdate_singleton (ts : List Nat) :
    ∀ p : ProxyState,
      ts.foldl (fun st t => updateProxy st 0 (mark_failure t)) ⟨[p], 0⟩
        = ⟨[afterFailures ts p], 0⟩ := by
  induction ts with
  | nil => intro p; rfl
  | cons t ts ih =>
    intro p
    show ts.foldl (fun st t => updateProxy st 0 (mark_failure t)) (updateProxy ⟨[p], 0⟩ 0 (mark_failure t))
        = _
    have hstep : updateProxy ⟨[p], 0⟩ 0 (mark_failure t) = ⟨[mark_failure t p], 0⟩ := rfl
    rw [hstep, ih (mark_failure t p)]
    rfl

theorem sentinelAfterFails_eq (ts : List Nat) :
    sentinelAfterFails ts = ⟨[afterFailures ts ⟨none, 0, 0⟩], 0⟩ :=
  foldUpdate_singleton ts ⟨none, 0, 0⟩

/-- The selector on a one-route pool: the single route (index 0) when its
cooldown has expired, `None` otherwise. -/
theorem singleton_next (m : Nat) (q : ProxyState) :
    (get_next_available_proxy m ⟨[q], 0⟩).1
      = if q.cooldown_until ≤ m then some 0 else none := by
  show (scanFrom m [q] 0 1).1 = _
  by_cases h : q.cooldown_until ≤ m
  · simp [scanFrom, eligible, h]
  · simp [scanFrom, eligible, h]

/-! ### Claim C8 -/

/-- C8 (counterexample): after one recorded failure at time 0, the sentinel
direct route cools down until time 2, and `next()` at time 1 returns `None` —
not the sentinel route — although the pool contains only the sentinel. -/
theorem c8_counterexample :
    (get_next_available_proxy 1 (updateProxy (init (fun l => l) none) 0 (mark_failure 0))).1
      = none := by
  decide

/-- C8 (amended): with no routes supplied (`None` or the empty list) the pool
contains exactly the sentinel direct route (`address = None`); `next()` returns
that sentinel whenever its cooldown has expired — in particular always on the
fresh pool — and `None` while it is cooling down; and consecutive recorded
failures on it increment its failure count and raise its cooldown by exactly
the same `min(300, 2^k)` exponential-backoff math as for a real proxy route. -/
theorem c8_sentinel_direct_route (shuffle : List String → List String)
    (ts : List Nat) (now : Nat) :
    (init shuffle none).proxies = [⟨none, 0, 0⟩]
    ∧ (init shuffle (some [])).proxies = [⟨none, 0, 0⟩]
    ∧ (get_next_available_proxy now (init shuffle none)).1 = some 0
    ∧ (sentinelAfterFails ts).proxies = [afterFailures ts ⟨none, 0, 0⟩]
    ∧ (afterFailures ts ⟨none, 0, 0⟩).failures = ts.length
    ∧ (ts ≠ [] → (afterFailures ts ⟨none, 0, 0⟩).cooldown_until
        = ts.getLastD 0 + min 300 (2 ^ ts.length))
    ∧ (∀ m, m < (afterFailures ts ⟨none, 0, 0⟩).cooldown_until →
        (get_next_available_proxy m (sentinelAfterFails ts)).1 = none)
    ∧ (∀ m, (afterFailures ts ⟨none, 0, 0⟩).cooldown_until ≤ m →
        (get_next_available_proxy m (sentinelAfterFails ts)).1 = some 0) := by
  refine ⟨rfl, rfl, ?_, ?_, ?_, ?_, ?_, ?_⟩
  · show (get_next_available_proxy now ⟨[⟨none, 0, 0⟩], 0⟩).1 = some 0
    rw [singleton_next]
    simp
  · rw [sentinelAfterFails_eq]
  · rw [afterFailures_failures]
    simp
  · intro hne
    exact afterFailures_cooldown_closed ts ⟨none, 0, 0⟩ hne rfl
  · intro m hm
    rw [sentinelAfterFails_eq, singleton_next]
    rw [if_neg (by omega)]
  · intro m hm
    rw [sentinelAfterFails_eq, singleton_next]
    rw [if_pos hm]

/-- Witness for `c8_sentinel_direct_route`: one failure at time 0 — the
sentinel's cooldown becomes `0 + min(300, 2)`, `next()` at time 1 returns
`None` and at time 2 returns the sentinel again. -/
theorem c8_sentinel_direct_route_witness :
    (([0] : List Nat) ≠ []) ∧ (1 : Nat) < (afterFailures [0] ⟨none, 0, 0⟩).cooldown_until ∧
    (afterFailures [0] ⟨none, 0, 0⟩).cooldown_until ≤ 2 ∧
    (afterFailures [0] ⟨none, 0, 0⟩).cooldown_until
      = ([0] : List Nat).getLastD 0 + min 300 (2 ^ ([0] : List Nat).length) ∧
    (get_next_available_proxy 1 (sentinelAfterFails [0])).1 = none ∧
    (get_next_available_proxy 2 (sentinelAfterFails [0])).1 = some 0 := by
  have h := c8_sentinel_direct_route (fun l => l) [0] 0
  exact ⟨by decide, by decide, by decide,
    h.2.2.2.2.2.1 (by decide),
    h.2.2.2.2.2.2.1 1 (by decide),
    h.2.2.2.2.2.2.2 2 (by decide)⟩

/-! ### Retry-loop lemmas -/

theorem fetchGo_attempts_le (times : Nat → Nat) (http : Nat → Except String String) :
    ∀ (fuel attempt : Nat) (lastExc : Option String) (sleeps : List Nat) (s : ClientState),
      (fetchGo times http attempt lastExc sleeps s fuel).attemptsUsed ≤ attempt + fuel := by
  intro fuel
  induction fuel with
  | zero =>
    intro attempt lastExc sleeps s
    exact Nat.le_add_right _ _
  | succ fuel ih =>
    intro attempt lastExc sleeps s
    rw [fetchGo]
    split
    · exact le_trans (ih (attempt + 1) _ _ _) (by omega)
    · split
      · show attempt + 1 ≤ attempt + (fuel + 1)
        omega
      · exact le_trans (ih (attempt + 1) _ _ _) (by omega)

theorem fetchGo_sleeps_le (times : Nat → Nat) (http : Nat → Except String String) :
    ∀ (fuel attempt : Nat) (lastExc : Option String) (sleeps : List Nat) (s : ClientState),
      (fetchGo times http attempt lastExc sleeps s fuel).sleeps.length ≤ sleeps.length + fuel := by
  intro fuel
  induction fuel with
  | zero =>
    intro attempt lastExc sleeps s
    exact Nat.le_add_right _ _
  | succ fuel ih =>
    intro attempt lastExc sleeps s
    rw [fetchGo]
    split
    · refine le_trans (ih (attempt + 1) _ _ _) ?_
      simp
      omega
    · split
      · show sleeps.length ≤ sleeps.length + (fuel + 1)
        omega
      · exact le_trans (ih (attempt + 1) _ _ _) (by omega)

theorem fetchGo_sleeps_all_five (times : Nat → Nat) (http : Nat → Except String String) :
    ∀ (fuel attempt : Nat) (lastExc : Option String) (sleeps : List Nat) (s : ClientState),
      (∀ d ∈ sleeps, d = 5) →
      ∀ d ∈ (fetchGo times http attempt lastExc sleeps s fuel).sleeps, d = 5 := by
  intro fuel
  induction fuel with
  | zero =>
    intro attempt lastExc sleeps s hall
    exact hall
  | succ fuel ih =>
    intro attempt lastExc sleeps s hall
    rw [fetchGo]
    split
    · refine ih (attempt + 1) _ _ _ ?_
      intro d hd
      rcases List.mem_append.1 hd with hd | hd
      · exact hall d hd
      · simpa using hd
    · split
      · exact hall
      · exact ih (attempt + 1) _ _ _ hall

theorem fetchGo_all_errors (times : Nat → Nat) (http : Nat → Except String String)
    (hfail : ∀ i b, http i ≠ Except.ok b) :
    ∀ (fuel attempt : Nat) (lastExc : Option String) (sleeps : List Nat) (s : ClientState),
      (fetchGo times http attempt lastExc sleeps s fuel).result
        = FetchResult.allProxiesFailed lastExc := by
  intro fuel
  induction fuel with
  | zero =>
    intro attempt lastExc sleeps s
    rfl
  | succ fuel ih =>
    intro attempt lastExc sleeps s
    rw [fetchGo]
    split
    · exact ih (attempt + 1) _ _ _
    · split
      · rename_i body heq
        exact absurd heq (hfail _ _)
      · exact ih (attempt + 1) _ _ _

/-! ### Claim C7 -/

/-- C7: every fetch call terminates with bounded work — the retry loop of
`_fetch_with_retries` uses at most `maxRetries` iterations; each
"all proxies cooling down" outcome waits a fixed 5-second sleep and consumes
one iteration, so the number of such waits is also bounded by `maxRetries`;
and when no attempt can succeed, the call surfaces the terminal typed
`AllProxiesFailedError` instead of retrying further. -/
theorem c7_bounded_retries (times : Nat → Nat) (http : Nat → Except String String)
    (maxRetries : Nat) (s : ClientState) :
    (fetch_with_retries times http maxRetries s).attemptsUsed ≤ maxRetries
    ∧ (fetch_with_retries times http maxRetries s).sleeps.length ≤ maxRetries
    ∧ (∀ d ∈ (fetch_with_retries times http maxRetries s).sleeps, d = 5)
    ∧ ((∀ i b, http i ≠ Except.ok b) →
        (fetch_with_retries times http maxRetries s).result
          = FetchResult.allProxiesFailed none) := by
  refine ⟨?_, ?_, ?_, ?_⟩
  · simpa using fetchGo_attempts_le times http maxRetries 0 none [] s
  · simpa using fetchGo_sleeps_le times http maxRetries 0 none [] s
  · exact fetchGo_sleeps_all_five times http maxRetries 0 none [] s (by simp)
  · intro hfail
    exact fetchGo_all_errors times http hfail maxRetries 0 none [] s

/-- Witness for `c7_bounded_retries`: a two-attempt run in which every HTTP
call errors ends in the terminal `AllProxiesFailedError`. -/
theorem c7_bounded_retries_witness :
    (∀ (i : Nat) (b : String),
      (fun _ : Nat => (Except.error "boom" : Except String String)) i ≠ Except.ok b) ∧
    (fetch_with_retries (fun _ => 0) (fun _ => Except.error "boom") 2
        (init (fun l => l) none)).result = FetchResult.allProxiesFailed none :=
  ⟨fun _ _ h => Except.noConfusion h,
   (c7_bounded_retries (fun _ => 0) (fun _ => Except.error "boom") 2
       (init (fun l => l) none)).2.2.2 (fun _ _ h => Except.noConfusion h)⟩

/-! ### Claim C1 -/

/-- C1 (evaluation at the failing input): with three routes, `maxRetries = 3`
and every attempt failing with a connect error, `_fetch_with_retries` raises
its terminal error after 3 attempts on 3 distinct routes — but the carried
"last error" detail is `None`, not the connect error, because the
`last_exception` variable is initialised to `None` and never assigned in the
`except` block. -/
theorem c1_terminal_error_detail_lost :
    (fetch_with_retries (fun _ => 0) (fun _ => Except.error "connect timeout") 3
        (init (fun l => l) (some ["a", "b", "c"]))).result
      = FetchResult.allProxiesFailed none
    ∧ (fetch_with_retries (fun _ => 0) (fun _ => Except.error "connect timeout") 3
        (init (fun l => l) (some ["a", "b", "c"]))).attemptsUsed = 3
    ∧ FetchResult.allProxiesFailed (none : Option String)
        ≠ FetchResult.allProxiesFailed (some "connect timeout") := by
  refine ⟨by decide, by decide, by decide⟩

/-! ### Claim C4 -/

/-- C4: with the failure times `ts` nondecreasing (time is monotone), after the
`k`-th consecutive recorded failure (no intervening success, so starting from a
zeroed route) the failure count is `k` and the cooldown deadline is
`now + min(cap, 2^k)` where `now` is the time of the `k`-th failure — with
`cap = 300` in `LinkedInClient` and `cap = 60` in `LinkedInApi`; the deadline
is non-decreasing in `k`; and a recorded success resets both fields to zero in
either client. -/
theorem c4_cooldown_backoff (p : ProxyState) (h : LinkedInApi.Health)
    (ts : List Nat) (k : Nat) (hk : 1 ≤ k) (hlen : ts.length = k)
    (hchain : ts.Chain' (· ≤ ·))
    (hp0 : p.failures = 0) (hpc : p.cooldown_until = 0)
    (hh0 : h.failures = 0) (hhc : h.cooldown = 0) :
    (afterFailures ts p).failures = k
    ∧ (afterFailures ts p).cooldown_until = ts.getLastD 0 + min 300 (2 ^ k)
    ∧ (∀ j, j < k → (afterFailures (ts.take j) p).cooldown_until
        ≤ (afterFailures (ts.take (j + 1)) p).cooldown_until)
    ∧ (∀ q : ProxyState, (mark_success q).failures = 0 ∧ (mark_success q).cooldown_until = 0)
    ∧ (LinkedInApi.afterFailures ts h).failures = k
    ∧ (LinkedInApi.afterFailures ts h).cooldown = ts.getLastD 0 + min 60 (2 ^ k)
    ∧ (∀ j, j < k → (LinkedInApi.afterFailures (ts.take j) h).cooldown
        ≤ (LinkedInApi.afterFailures (ts.take (j + 1)) h).cooldown)
    ∧ (∀ g : LinkedInApi.Health,
        (LinkedInApi.mark_success g).failures = 0 ∧ (LinkedInApi.mark_success g).cooldown = 0) := by
  have hne : ts ≠ [] := by
    intro h0
    rw [h0] at hlen
    simp at hlen
    omega
  have hdec := List.dropLast_append_getLast hne
  refine ⟨?_, ?_, ?_, fun q => ⟨rfl, rfl⟩, ?_, ?_, ?_, fun g => ⟨rfl, rfl⟩⟩
  · rw [afterFailures_failures, hp0, hlen, Nat.zero_add]
  · calc (afterFailures ts p).cooldown_until
        = (afterFailures (ts.dropLast ++ [ts.getLast hne]) p).cooldown_until := by rw [hdec]
      _ = ts.getLast hne + min 300 (2 ^ (p.failures + ts.dropLast.length + 1)) :=
          afterFailures_last_cooldown _ _ _
      _ = ts.getLastD 0 + min 300 (2 ^ k) := by
          rw [hp0, List.length_dropLast, hlen]
          refine congrArg₂ (· + ·) ?_ ?_
          · conv_rhs => rw [← hdec]
            rw [List.getLastD_concat]
          · refine congrArg (min 300) (congrArg (2 ^ ·) ?_)
            omega
  · intro j hj
    match j with
    | 0 =>
      show p.cooldown_until ≤ _
      rw [hpc]
      exact Nat.zero_le _
    | i + 1 =>
      rw [take_succ_getD ts i (by omega), take_succ_getD ts (i + 1) (by omega),
          afterFailures_last_cooldown, afterFailures_last_cooldown]
      have hlt1 : (ts.take i).length = i := by
        rw [List.length_take]
        omega
      have hlt2 : (ts.take (i + 1)).length = i + 1 := by
        rw [List.length_take]
        omega
      rw [hlt1, hlt2]
      refine Nat.add_le_add (chain_getD_le ts hchain i (by omega)) ?_
      exact min_le_min (Nat.le_refl 300)
        (Nat.pow_le_pow_right (by omega) (by omega))
  · rw [api_afterFailures_failures, hh0, hlen, Nat.zero_add]
  · calc (LinkedInApi.afterFailures ts h).cooldown
        = (LinkedInApi.afterFailures (ts.dropLast ++ [ts.getLast hne]) h).cooldown := by rw [hdec]
      _ = ts.getLast hne + min 60 (2 ^ (h.failures + ts.dropLast.length + 1)) :=
          api_afterFailures_last_cooldown _ _ _
      _ = ts.getLastD 0 + min 60 (2 ^ k) := by
          rw [hh0, List.length_dropLast, hlen]
          refine congrArg₂ (· + ·) ?_ ?_
          · conv_rhs => rw [← hdec]
            rw [List.getLastD_concat]
          · refine congrArg (min 60) (congrArg (2 ^ ·) ?_)
            omega
  · intro j hj
    match j with
    | 0 =>
      show h.cooldown ≤ _
      rw [hhc]
      exact Nat.zero_le _
    | i + 1 =>
      rw [take_succ_getD ts i (by omega), take_succ_getD ts (i + 1) (by omega),
          api_afterFailures_last_cooldown, api_afterFailures_last_cooldown]
      have hlt1 : (ts.take i).length = i := by
        rw [List.length_take]
        omega
      have hlt2 : (ts.take (i + 1)).length = i + 1 := by
        rw [List.length_take]
        omega
      rw [hlt1, hlt2]
      refine Nat.add_le_add (chain_getD_le ts hchain i (by omega)) ?_
      exact min_le_min (Nat.le_refl 60)
        (Nat.pow_le_pow_right (by omega) (by omega))

/-- Witness for `c4_cooldown_backoff`: two consecutive failures at times 3 and
5 on fresh states — failure counts reach 2 and the cooldowns become
`5 + min(300, 4)` and `5 + min(60, 4)`. -/
theorem c4_cooldown_backoff_witness :
    (1 ≤ 2 ∧ ([3, 5] : List Nat).length = 2 ∧ ([3, 5] : List Nat).Chain' (· ≤ ·)) ∧
    (afterFailures [3, 5] ⟨some "a", 0, 0⟩).failures = 2 ∧
    (afterFailures [3, 5] ⟨some "a", 0, 0⟩).cooldown_until = 5 + min 300 (2 ^ 2) ∧
    (LinkedInApi.afterFailures [3, 5] ⟨0, 0⟩).cooldown = 5 + min 60 (2 ^ 2) :=
  ⟨⟨by decide, by decide, by simp⟩, by
    have hmain := c4_cooldown_backoff ⟨some "a", 0, 0⟩ ⟨0, 0⟩ [3, 5] 2
      (by decide) (by decide) (by simp) rfl rfl rfl rfl
    exact ⟨hmain.1, hmain.2.1, hmain.2.2.2.2.2.1⟩⟩

/-! ### Claim C3 -/

/-- C3 (counterexample): a `next()` call does not always advance the rotation
cursor by exactly one position. In a two-route pool whose first route has just
failed (cooldown until 2), a call at time 1 skips the cooling route, returns
the second one, and leaves the cursor two positions further (back at 0), not at
`(0 + 1) % 2 = 1`. -/
theorem c3_counterexample :
    (get_next_available_proxy 1 twoRouteState).2.cursor ≠
      (twoRouteState.cursor + 1) % twoRouteState.proxies.length := by
  decide

/-- C3 (amended): each `next()` call advances the rotation cursor by one
position per scanned route — it ends one past the returned route's index when a
route is returned (so exactly one position only when the route at the cursor
was eligible), and ends back at its starting position (a net full cycle of
`len(routes)` single-position advances) when the call returns `None`. -/
theorem c3_cursor_advance (now : Nat) (s : ClientState)
    (hn : 0 < s.proxies.length) (hc : s.cursor < s.proxies.length) :
    (∀ i, (get_next_available_proxy now s).1 = some i →
        (get_next_available_proxy now s).2.cursor = (i + 1) % s.proxies.length)
    ∧ ((get_next_available_proxy now s).1 = none →
        (get_next_available_proxy now s).2.cursor = s.cursor) := by
  rw [get_next_eq now s hn hc]
  cases hfind : ((List.range s.proxies.length).map fun j => (s.cursor + j) % s.proxies.length).find?
      (fun i => eligible now (s.proxies.getD i default)) with
  | none => simp
  | some i =>
    constructor
    · intro i' hi'
      simp only [Option.elim] at hi' ⊢
      cases hi'
      rfl
    · intro h
      simp [Option.elim] at h

/-- Witness for `c3_cursor_advance` at a concrete input: in `twoRouteState` at
time 1, the selector returns route 1 and the cursor ends at `(1 + 1) % 2 = 0`. -/
theorem c3_cursor_advance_witness :
    0 < twoRouteState.proxies.length ∧ twoRouteState.cursor < twoRouteState.proxies.length ∧
    (get_next_available_proxy 1 twoRouteState).2.cursor = (1 + 1) % twoRouteState.proxies.length :=
  ⟨by decide, by decide,
    (c3_cursor_advance 1 twoRouteState (by decide) (by decide)).1 1 (by decide)⟩

/-! ### Claim C5 -/

/-- C5: `next()` scans at most `len(routes)` positions starting from the
cursor and returns the first eligible route in that cyclic scan order (first
conjunct, with the scan order written out as `cursor, cursor+1, …` modulo the
pool size); if exactly one route is eligible it is returned regardless of
cursor position (second conjunct); if every route's cooldown is in the future
it returns `None` (third conjunct). -/
theorem c5_first_eligible (now : Nat) (s : ClientState)
    (hn : 0 < s.proxies.length) (hc : s.cursor < s.proxies.length) :
    ((get_next_available_proxy now s).1 =
        ((List.range s.proxies.length).map fun j => (s.cursor + j) % s.proxies.length).find?
          (fun i => eligible now (s.proxies.getD i default)))
    ∧ (∀ j, j < s.proxies.length →
        (s.proxies.getD j default).cooldown_until ≤ now →
        (∀ i, i < s.proxies.length → i ≠ j → now < (s.proxies.getD i default).cooldown_until) →
        (get_next_available_proxy now s).1 = some j)
    ∧ ((∀ i, i < s.proxies.length → now < (s.proxies.getD i default).cooldown_until) →
        (get_next_available_proxy now s).1 = none) := by
  have hbase := get_next_eq now s hn hc
  refine ⟨?_, ?_, ?_⟩
  · rw [hbase]
    cases ((List.range s.proxies.length).map fun j => (s.cursor + j) % s.proxies.length).find?
        (fun i => eligible now (s.proxies.getD i default)) with
    | none => simp
    | some i => simp
  · intro j hj hjel huniq
    rw [hbase]
    cases hfind : ((List.range s.proxies.length).map fun j => (s.cursor + j) % s.proxies.length).find?
        (fun i => eligible now (s.proxies.getD i default)) with
    | none =>
      exfalso
      have hmem := mem_scanOrder s.proxies.length s.cursor j hn hc hj
      have := List.find?_eq_none.1 hfind j hmem
      exact this (decide_eq_true hjel)
    | some i =>
      have hpi := find?_some_of_eq hfind
      have hin : i ∈ (List.range s.proxies.length).map fun j => (s.cursor + j) % s.proxies.length :=
        List.mem_of_find?_eq_some hfind
      have hilt : i < s.proxies.length := scanOrder_lt _ _ hn i hin
      have hij : i = j := by
        by_contra hne
        have := huniq i hilt hne
        have := of_decide_eq_true hpi
        omega
      simp [hij]
  · intro hall
    rw [hbase]
    have hnone : ((List.range s.proxies.length).map fun j => (s.cursor + j) % s.proxies.length).find?
        (fun i => eligible now (s.proxies.getD i default)) = none := by
      refine List.find?_eq_none.2 ?_
      intro i hi
      have hilt := scanOrder_lt _ _ hn i hi
      have := hall i hilt
      simp only [eligible, decide_eq_true_eq]
      omega
    rw [hnone]
    simp

/-! ### Claim C6 -/

/-- C6: for a pool of `N` routes that are all eligible, `N` consecutive
`next()` calls with no intervening failure marks return the routes in exactly
the cyclic order the cursor advances over the sequence (first conjunct), and
this list of returned indices is a permutation of all `N` route indices
(second conjunct) — every route is returned exactly once. -/
theorem c6_round_robin_fairness (now : Nat) (s : ClientState)
    (hn : 0 < s.proxies.length) (hc : s.cursor < s.proxies.length)
    (helig : ∀ p ∈ s.proxies, p.cooldown_until ≤ now) :
    (runNextCalls now s s.proxies.length).1 =
      ((List.range s.proxies.length).map fun j => some ((s.cursor + j) % s.proxies.length))
    ∧ ((List.range s.proxies.length).map fun j => (s.cursor + j) % s.proxies.length).Perm
        (List.range s.proxies.length) := by
  constructor
  · have := runNextCalls_all_eligible now s.proxies hn helig s.proxies.length s.cursor hc
    rw [show (⟨s.proxies, s.cursor⟩ : ClientState) = s from rfl] at this
    rw [this]
  · exact scanOrder_perm s.proxies.length s.cursor hn hc

/-- Witness for `c6_round_robin_fairness`: three always-eligible routes,
cursor at 1 — the three calls return routes 1, 2, 0, each exactly once. -/
theorem c6_round_robin_fairness_witness :
    0 < (⟨[⟨some "a", 0, 0⟩, ⟨some "b", 0, 0⟩, ⟨some "c", 0, 0⟩], 1⟩ : ClientState).proxies.length ∧
    (⟨[⟨some "a", 0, 0⟩, ⟨some "b", 0, 0⟩, ⟨some "c", 0, 0⟩], 1⟩ : ClientState).cursor <
      (⟨[⟨some "a", 0, 0⟩, ⟨some "b", 0, 0⟩, ⟨some "c", 0, 0⟩], 1⟩ : ClientState).proxies.length ∧
    (∀ p ∈ (⟨[⟨some "a", 0, 0⟩, ⟨some "b", 0, 0⟩, ⟨some "c", 0, 0⟩], 1⟩ : ClientState).proxies,
      p.cooldown_until ≤ 0) ∧
    (runNextCalls 0 ⟨[⟨some "a", 0, 0⟩, ⟨some "b", 0, 0⟩, ⟨some "c", 0, 0⟩], 1⟩
        (⟨[⟨some "a", 0, 0⟩, ⟨some "b", 0, 0⟩, ⟨some "c", 0, 0⟩], 1⟩ : ClientState).proxies.length).1 =
      [some 1, some 2, some 0] :=
  ⟨by decide, by decide, by decide, by
    have h := (c6_round_robin_fairness 0
        ⟨[⟨some "a", 0, 0⟩, ⟨some "b", 0, 0⟩, ⟨some "c", 0, 0⟩], 1⟩
        (by decide) (by decide) (by decide)).1
    rw [h]
    decide⟩

/-- Witness for `c5_first_eligible`: a pool of two routes where only route 1 is
eligible at time 1 — `next()` returns route 1 although the cursor is at 0. -/
theorem c5_first_eligible_witness :
    0 < (⟨[⟨some "a", 0, 5⟩, ⟨some "b", 0, 0⟩], 0⟩ : ClientState).proxies.length ∧
    (⟨[⟨some "a", 0, 5⟩, ⟨some "b", 0, 0⟩], 0⟩ : ClientState).cursor <
      (⟨[⟨some "a", 0, 5⟩, ⟨some "b", 0, 0⟩], 0⟩ : ClientState).proxies.length ∧
    (get_next_available_proxy 1 ⟨[⟨some "a", 0, 5⟩, ⟨some "b", 0, 0⟩], 0⟩).1 = some 1 :=
  ⟨by decide, by decide,
    (c5_first_eligible 1 ⟨[⟨some "a", 0, 5⟩, ⟨some "b", 0, 0⟩], 0⟩ (by decide) (by decide)).2.1
      1 (by decide) (by decide) (by decide)⟩

end LinkedInClient

/-! ### Claim C2 -/

/-- C2: the stats block of `LinkedInScraper.run` reads `success_count` and
`failure_count` on the client, but `LinkedInClient` defines neither attribute
anywhere (neither in `__init__` nor at class level), so the first read already
raises `AttributeError` — the counter snapshot does not exist on the client. -/
theorem c2_counters_not_defined :
    pyGetattr LinkedInClient.instanceAttrs "success_count"
        = Except.error "AttributeError: success_count"
    ∧ pyGetattr LinkedInClient.instanceAttrs "failure_count"
        = Except.error "AttributeError: failure_count"
    ∧ scraperStats LinkedInClient.instanceAttrs
        = Except.error "AttributeError: success_count" :=
  ⟨rfl, rfl, rfl⟩

namespace FileProxyProvider

/-! ### Claim C10 -/

/-- Membership in the accumulating fold of `get_proxies` comes from the
accumulator or from some configuration's own proxies. -/
theorem mem_get_proxies_aux (p : List Char) :
    ∀ (configs : List FileConfig) (acc : List (List Char)),
      p ∈ configs.foldl (fun a c => a ++ processConfig c) acc →
      p ∈ acc ∨ ∃ c ∈ configs, p ∈ processConfig c := by
  intro configs
  induction configs with
  | nil =>
    intro acc h
    exact Or.inl h
  | cons c cs ih =>
    intro acc h
    rcases ih (acc ++ processConfig c) h with h1 | ⟨c2, hc2, hp2⟩
    · rcases List.mem_append.1 h1 with h2 | h2
      · exact Or.inl h2
      · exact Or.inr ⟨c, List.mem_cons_self c cs, h2⟩
    · exact Or.inr ⟨c2, List.mem_cons_of_mem _ hc2, hp2⟩

/-- A proxy produced by one configuration comes from some line of its file. -/
theorem mem_processConfig (c : FileConfig) (p : List Char) (hp : p ∈ processConfig c) :
    ∃ ls, c.content = some ls ∧ ∃ line ∈ ls,
      processLine (truthy c.protocol) line = some p := by
  unfold processConfig at hp
  split at hp
  · simp at hp
  · split at hp
    · simp at hp
    · rename_i ls hcontent
      rcases List.mem_filterMap.1 hp with ⟨line, hline, hsome⟩
      exact ⟨ls, hcontent, line, hline, hsome⟩

/-- A line that produces a proxy is not blank, not a comment line, and does not
itself start (case-insensitively) with `http://`. -/
theorem processLine_excludes (dp : Option (List Char)) (line p : List Char)
    (h : processLine dp line = some p) :
    (pyStrip line).isEmpty = false
    ∧ List.isPrefixOf "#".data (pyStrip line) = false
    ∧ List.isPrefixOf "http://".data (pyToLower (pyStrip line)) = false := by
  unfold processLine at h
  by_cases h1 : ((pyStrip line).isEmpty || List.isPrefixOf "#".data (pyStrip line)) = true
  · rw [if_pos h1] at h
    exact absurd h (by simp)
  · rw [if_neg h1] at h
    by_cases h2 : List.isPrefixOf "http://".data (pyToLower (pyStrip line)) = true
    · rw [if_pos h2] at h
      exact absurd h (by simp)
    · have h1' := h1
      simp only [Bool.or_eq_true, not_or, Bool.not_eq_true] at h1'
      have h2' : List.isPrefixOf "http://".data (pyToLower (pyStrip line)) = false := by
        cases hb : List.isPrefixOf "http://".data (pyToLower (pyStrip line)) with
        | false => rfl
        | true => exact absurd hb h2
      exact ⟨h1'.1, h1'.2, h2'⟩

/-- C10 (counterexample): with a file configuration whose default protocol is
`http` and a file containing the bare line `127.0.0.1:8080`, `get_proxies`
returns `http://127.0.0.1:8080` — a proxy using the plain-HTTP scheme — so
file-sourced routes are not guaranteed to avoid `http://`. -/
theorem c10_counterexample :
    get_proxies [⟨some "proxies.txt".data, some "http".data, some ["127.0.0.1:8080".data]⟩]
      = ["http://127.0.0.1:8080".data]
    ∧ List.isPrefixOf "http://".data "http://127.0.0.1:8080".data = true :=
  ⟨by decide, by decide⟩

/-- C10 (amended): every proxy returned by `get_proxies` originates from a
line of some configured file that is non-blank, does not start with `#`, and
does not itself start (case-insensitively) with `http://` — those lines are
always excluded — but the returned proxy may still carry the plain-HTTP scheme
when a configured default protocol of `http` is prepended to a protocol-less
line. -/
theorem c10_excluded_lines (configs : List FileConfig) (p : List Char)
    (hp : p ∈ get_proxies configs) :
    ∃ c ∈ configs, ∃ ls, c.content = some ls ∧ ∃ line ∈ ls,
      processLine (truthy c.protocol) line = some p
      ∧ (pyStrip line).isEmpty = false
      ∧ List.isPrefixOf "#".data (pyStrip line) = false
      ∧ List.isPrefixOf "http://".data (pyToLower (pyStrip line)) = false := by
  rcases (mem_get_proxies_aux p configs [] hp).resolve_left (by simp) with ⟨c, hc, hpc⟩
  rcases mem_processConfig c p hpc with ⟨ls, hls, line, hline, hsome⟩
  rcases processLine_excludes _ _ _ hsome with ⟨e1, e2, e3⟩
  exact ⟨c, hc, ls, hls, line, hline, hsome, e1, e2, e3⟩

/-- Witness for `c10_excluded_lines`: a file with the single line
`socks5://h:1` and no default protocol. -/
theorem c10_excluded_lines_witness :
    ("socks5://h:1".data
        ∈ get_proxies [⟨some "f.txt".data, none, some ["socks5://h:1".data]⟩]) ∧
    (∃ c ∈ [(⟨some "f.txt".data, none, some ["socks5://h:1".data]⟩ : FileConfig)],
      ∃ ls, c.content = some ls ∧ ∃ line ∈ ls,
        processLine (truthy c.protocol) line = some "socks5://h:1".data
        ∧ (pyStrip line).isEmpty = false
        ∧ List.isPrefixOf "#".data (pyStrip line) = false
        ∧ List.isPrefixOf "http://".data (pyToLower (pyStrip line)) = false) :=
  ⟨by decide, c10_excluded_lines _ _ (by decide)⟩

end FileProxyProvider

end Ljobx
